import Mathlib

/-!
Shallow embedding of the course-catalog extraction core of `extract.py`
(repository `ecwu/bcsc`).  Lines of text are modelled as `List Char`; each
Python helper becomes a Lean function with the same name, and the stateful
single-pass segmenter of `extract` becomes a fold over an explicit state
record.  Regular-expression tests are translated into executable character
scans that follow the backtracking behaviour of the compiled patterns on
the (ASCII, control-free) lines the program feeds them.
-/

abbrev Line := List Char

/-- Character class `[A-Z]` of the compiled patterns. -/
def isUpperC (c : Char) : Bool := 65 ≤ c.toNat && c.toNat ≤ 90

/-- Character class `\d` (the input is ASCII, so this is `[0-9]`). -/
def isDigitC (c : Char) : Bool := 48 ≤ c.toNat && c.toNat ≤ 57

/-- Character class `\s` restricted to ASCII, as Python matches it. -/
def isPySpace (c : Char) : Bool :=
  c == ' ' || c == '\t' || c == '\n' || c == '\r' || c == '\x0b' || c == '\x0c'

/-- Character class `[0-9A-Z\s\-\(\)&\+\?,:]` of `COURSE_NAME_PATTERN`. -/
def allowedChar (c : Char) : Bool :=
  isDigitC c || isUpperC c || isPySpace c ||
  c == '-' || c == '(' || c == ')' || c == '&' || c == '+' || c == '?' || c == ',' || c == ':'

/-- Python `str.strip()`: drop whitespace from both ends. -/
def pyStrip (l : List Char) : List Char :=
  ((l.dropWhile isPySpace).reverse.dropWhile isPySpace).reverse

/-- Worker for `removeAll`; the fuel argument (an upper bound on the list
length, consumed once per scanned position) only makes the recursion
structural and never runs out. -/
def removeAllAux (pat : List Char) : Nat → List Char → List Char
  | _, [] => []
  | 0, l => l
  | fuel + 1, c :: rest =>
    if pat ≠ [] ∧ pat.isPrefixOf (c :: rest) then
      removeAllAux pat fuel ((c :: rest).drop pat.length)
    else
      c :: removeAllAux pat fuel rest

/-- Python `str.replace(pat, "")`: delete every (left-to-right, non-overlapping)
occurrence of `pat`. -/
def removeAll (pat : List Char) (l : List Char) : List Char :=
  removeAllAux pat l.length l

/-- Attempt to match `[A-Z]{k}\d{4}` at the start of `l`; on success return
the matched code together with the remaining characters. -/
def codeTry (k : Nat) (l : List Char) : Option (List Char × List Char) :=
  if (l.take k).length = k && (l.take k).all isUpperC &&
     ((l.drop k).take 4).length = 4 && ((l.drop k).take 4).all isDigitC then
    some (l.take k ++ (l.drop k).take 4, l.drop (k + 4))
  else none

/-- Attempt a full anchored match of
`^([A-Z]{k}\d{4}) ([0-9A-Z\s\-\(\)&\+\?,:]*)$` with a fixed letter count `k`;
return the first capture group on success. -/
def fullTry (k : Nat) (l : List Char) : Option (List Char) :=
  match codeTry k l with
  | some (code, ' ' :: tail) => if tail.all allowedChar then some code else none
  | _ => none

/-- Full-line match of `COURSE_NAME_PATTERN`; the greedy quantifier
`[A-Z]{2,4}` tries 4 letters first, then 3, then 2 (at most one choice can
succeed, since a letter and a digit are never the same character). -/
def courseNameFullMatch (l : List Char) : Option (List Char) :=
  match fullTry 4 l with
  | some code => some code
  | none =>
    match fullTry 3 l with
    | some code => some code
    | none => fullTry 2 l

/-- Truthiness of `COURSE_NAME_PATTERN.match(line)`. -/
def isCourseNameLine (l : Line) : Bool := (courseNameFullMatch l).isSome

/-- Match of `COURSE_CODE_PATTERN` = `([A-Z]{2,4}\d{4})` anchored at the
current position (greedy letter count, 4 then 3 then 2). -/
def codeHere (l : List Char) : Option (List Char) :=
  match codeTry 4 l with
  | some (code, _) => some code
  | none =>
    match codeTry 3 l with
    | some (code, _) => some code
    | none =>
      match codeTry 2 l with
      | some (code, _) => some code
      | none => none

/-- `get_course_code`: `COURSE_CODE_PATTERN.search` scans left to right for
the first position where the code pattern matches. -/
def get_course_code : List Char → Option (List Char)
  | [] => none
  | c :: rest =>
    match codeHere (c :: rest) with
    | some code => some code
    | none => get_course_code rest

/-- The four `description_markers` literals of `extract.py`. -/
def descMarkers : List (List Char) :=
  ["Course Description:".toList, "Course  Description".toList,
   "Description:".toList, "Course Description".toList]

/-- Python `pat in line` substring test. -/
def containsSub (pat : List Char) (l : List Char) : Bool :=
  match l with
  | [] => pat.isEmpty
  | _ :: rest => pat.isPrefixOf l || containsSub pat rest

/-- Does the line contain one of the description-marker substrings? -/
def containsDescMarker (l : Line) : Bool := descMarkers.any (fun m => containsSub m l)

/-- The prerequisite-marker literal. -/
def preMarkerChars : List Char := "Pre-requisite(s):".toList

/-- Does the line contain the prerequisite-marker substring? -/
def containsPreMarker (l : Line) : Bool := containsSub preMarkerChars l

/-- `hanging_course_name`: collect non-empty lines before the first line
containing an open parenthesis. -/
def hanging_course_name : List Line → List Line
  | [] => []
  | line :: rest =>
    if line.contains '(' then []
    else if line.isEmpty then hanging_course_name rest
    else line :: hanging_course_name rest

/-- `get_course_name`: strip the code out of the header line and join the
remainder with the hanging title lines using single spaces. -/
def get_course_name (course_name : Line) (course_raw : List Line) : Line :=
  match get_course_code course_name with
  | none => pyStrip course_name
  | some course_code =>
    let raw_course_name := removeAll course_code course_name
    let hanging := hanging_course_name course_raw
    pyStrip (List.intercalate [' '] (pyStrip raw_course_name :: hanging))

/-- `UNIT_PATTERN.match(stripped_line)`: prefix match of
`\(\d{1}\s*(unit|UNIT).*\)` (Python `re.match` anchors only at the start;
`.*\)` just requires a later closing parenthesis on the line). -/
def unitMatch (l : List Char) : Bool :=
  match l with
  | '(' :: d :: rest =>
    isDigitC d &&
      (let r := rest.dropWhile isPySpace
       (("unit".toList).isPrefixOf r || ("UNIT".toList).isPrefixOf r) &&
       (r.drop 4).contains ')')
  | _ => false

/-- `get_course_unit`: first line whose stripped form matches the unit
pattern yields `stripped[1:2]`. -/
def get_course_unit : List Line → Option Line
  | [] => none
  | line :: rest =>
    let stripped := pyStrip line
    if unitMatch stripped then some ((stripped.drop 1).take 1)
    else get_course_unit rest

/-- Loop body of `get_course_desc`: once a marker line is seen, every line
from it onward is kept. -/
def descLines : Bool → List Line → List Line
  | _, [] => []
  | found, line :: rest =>
    let found2 := found || containsDescMarker line
    if found2 then line :: descLines found2 rest else descLines found2 rest

/-- `get_course_desc`. -/
def get_course_desc (raw : List Line) : List Line := descLines false raw

/-- Loop body of `get_course_pre`: the prerequisite-marker line (with the
marker substring deleted) and its successors are kept until a
description-marker line breaks the loop. -/
def preLines : Bool → List Line → List Line
  | _, [] => []
  | found, line :: rest =>
    let found2 := found || containsPreMarker line
    if containsDescMarker line then []
    else if found2 then
      (if containsPreMarker line then removeAll preMarkerChars line else line) ::
        preLines found2 rest
    else preLines found2 rest

/-- `get_course_pre`: `"".join` of the collected fragments. -/
def get_course_pre (raw : List Line) : Line := List.flatten (preLines false raw)

/-- State of the segmentation loop in `extract` (lines 150–169):
`cn_list`, `cd_list`, `new_flag`, `temp_c_list`. -/
structure SegState where
  cn_list : List Line
  cd_list : List (List Line)
  new_flag : Nat
  temp_c_list : List Line
deriving DecidableEq

/-- One iteration of the segmentation loop. -/
def segStep (s : SegState) (line : Line) : SegState :=
  if isCourseNameLine line then
    if s.new_flag = 1 then
      { s with temp_c_list := s.temp_c_list ++ [line] }
    else
      if s.cn_list.isEmpty then
        { s with new_flag := 1, cn_list := s.cn_list ++ [line] }
      else
        { s with cd_list := s.cd_list ++ [s.temp_c_list], temp_c_list := [],
                 new_flag := 1, cn_list := s.cn_list ++ [line] }
  else if containsDescMarker line then
    { s with new_flag := 0, temp_c_list := s.temp_c_list ++ [line] }
  else
    { s with temp_c_list := s.temp_c_list ++ [line] }

/-- Initial segmenter state. -/
def segInit : SegState := ⟨[], [], 0, []⟩

/-- Run the segmentation loop over the whole document. -/
def segRun (text : List Line) : SegState := text.foldl segStep segInit

/-- The segmenter's result: the course-name lines and, after the final
`cd_list.append(temp_c_list)`, the raw-line segments. -/
def segmentLines (text : List Line) : List Line × List (List Line) :=
  let s := segRun text
  (s.cn_list, s.cd_list ++ [s.temp_c_list])

/-- The per-course payload built in `extract` (lines 177–183). -/
structure CourseRecord where
  course_code : Line
  course_name : Line
  unit : Option Line
  prerequisite : Line
  description : List Line
deriving DecidableEq

/-- Payload for one `(course name line, raw segment)` pair. -/
def mkPayload (cc : Line) (n : Line) (r : List Line) : CourseRecord :=
  ⟨cc, get_course_name n r, get_course_unit r, get_course_pre r, get_course_desc r⟩

/-- Insertion-ordered dictionary write `course_dict[cc] = payload`
(overwrite keeps the original position, as in a Python dict). -/
def upsert (m : List (Line × CourseRecord)) (k : Line) (v : CourseRecord) :
    List (Line × CourseRecord) :=
  if m.any (fun p => p.1 == k) then m.map (fun p => if p.1 == k then (k, v) else p)
  else m ++ [(k, v)]

/-- The record-assembly loop of `extract` (lines 173–186): pairs with no
extractable course code are skipped. -/
def buildRecords (pairs : List (Line × List Line)) : List (Line × CourseRecord) :=
  pairs.foldl
    (fun m p =>
      match get_course_code p.1 with
      | some cc => upsert m cc (mkPayload cc p.1 p.2)
      | none => m)
    []

/-- The pure core of `extract`: segment the lines, then assemble the
code-keyed record dictionary from `zip(cn_list, cd_list)`. -/
def extractRecords (text : List Line) : List (Line × CourseRecord) :=
  let p := segmentLines text
  buildRecords (List.zip p.1 p.2)

/-- `PAGE_NUMBER_PATTERN.match`: prefix match of `\d+ / \d+`. -/
def pageNumberMatch (l : List Char) : Bool :=
  match l.dropWhile isDigitC with
  | ' ' :: '/' :: ' ' :: rest =>
    !((l.takeWhile isDigitC).isEmpty) && !((rest.takeWhile isDigitC).isEmpty)
  | _ => false

/-- Python `str.split(":")` for the one-character separator. -/
def splitOnColon : List Char → List (List Char)
  | [] => [[]]
  | c :: rest =>
    if c == ':' then [] :: splitOnColon rest
    else
      match splitOnColon rest with
      | [] => [[c]]
      | h :: t => (c :: h) :: t

/-- Everything after the first colon of the list (empty if there is none). -/
def afterFirstColon : List Char → List Char
  | [] => []
  | c :: rest => if c == ':' then rest else afterFirstColon rest

/-- Serialized prerequisite value (lines 196–198 of `extract.py`): strip if
non-empty else `"N/A"`, then normalize to `"N/A"` when it contains `"None"`
or `"None Course"`. -/
def tsvPrerequisite (p : Line) : Line :=
  let temp := if p.isEmpty then ("N/A".toList) else pyStrip p
  if containsSub ("None".toList) temp || containsSub ("None Course".toList) temp then
    "N/A".toList
  else temp

/-- Serialized description value (lines 208–211 of `extract.py`): drop
page-number lines, join, `split(":")[1:]`, join, strip. -/
def tsvDescription (v : List Line) : Line :=
  let tv := v.filter (fun line => !(pageNumberMatch (pyStrip line)))
  pyStrip (List.flatten ((splitOnColon (List.flatten tv)).tail))

/-- One row of the `records.tsv` output. -/
structure TsvRow where
  code : Line
  name : Line
  pre : Line
  unit : Option Line
deriving DecidableEq

/-- The rows written to `records.tsv`. -/
def recordRows (text : List Line) : List TsvRow :=
  (extractRecords text).map
    (fun p => ⟨p.2.course_code, p.2.course_name, tsvPrerequisite p.2.prerequisite, p.2.unit⟩)

/-- The rows written to `description.tsv`. -/
def descRows (text : List Line) : List (Line × Line) :=
  (extractRecords text).map (fun p => (p.1, tsvDescription p.2.description))

/-- Formalisation of the description formula exactly as worded in the spec
for claim C8: drop everything up to and including the first colon of the
joined text, keep later colons, and trim. -/
def descriptionPerSpecC8 (v : List Line) : Line :=
  let tv := v.filter (fun line => !(pageNumberMatch (pyStrip line)))
  pyStrip (afterFirstColon (List.flatten tv))

/-- One well-formed course block of a document: a genuine header, body
lines before the first description marker, the marker line, and trailing
lines none of which is header-shaped. -/
structure Block where
  header : Line
  mid : List Line
  marker : Line
  tail : List Line

/-- The lines a block contributes to the document. -/
def blockLines (b : Block) : List Line := b.header :: (b.mid ++ b.marker :: b.tail)

/-- Hypotheses making a block well formed. -/
def goodBlock (b : Block) : Prop :=
  isCourseNameLine b.header = true ∧
  containsDescMarker b.marker = true ∧
  (∀ l ∈ b.mid, containsDescMarker l = false) ∧
  (∀ l ∈ b.tail, isCourseNameLine l = false)

/-- Scenario A input. -/
def scenA : List Line :=
  ["ACCT1013 PRINCIPLES OF ACCOUNTING".toList, "(3 units)".toList,
   "Pre-requisite(s): None".toList, "Course Description: This course covers basics.".toList]

/-- Scenario B input. -/
def scenB : List Line :=
  ["BUSA2003 ADVANCED".toList, "STRATEGIC MANAGEMENT".toList, "(3 units)".toList,
   "Course Description: Strategy.".toList]

/-- The Scenario A header line. -/
def hLineA : Line := "ACCT1013 PRINCIPLES OF ACCOUNTING".toList

/-- The Scenario B header line. -/
def hLineB : Line := "BUSA2003 ADVANCED".toList

/-- The Scenario B course code. -/
def codeB : Line := "BUSA2003".toList

/-- Scenario E raw segment lines. -/
def scenERaw : List Line :=
  ["Pre-requisite(s): None Course required".toList, "Course Description: x".toList]

/-- Raw segment whose prerequisite block is whitespace only. -/
def c7raw : List Line := ["Pre-requisite(s): ".toList, "Course Description: x".toList]

/-- Full document whose only course has a whitespace-only prerequisite
block. -/
def c7doc : List Line :=
  ["ACCT1013 A".toList, "Pre-requisite(s): ".toList, "Course Description: x".toList]

/-- Raw segment whose description body contains a second colon. -/
def c8raw : List Line := ["Course Description: uses A: and B.".toList]

/-- A document with no course-name lines at all. -/
def noHeaderDoc : List Line := ["hello".toList]

/-! ## Helper lemmas -/

theorem splitOnColon_ne_nil (l : List Char) : splitOnColon l ≠ [] := by
  cases l with
  | nil => simp [splitOnColon]
  | cons c rest =>
    simp only [splitOnColon]
    split
    · simp
    · split
      · simp
      · simp

theorem flatten_splitOnColon (l : List Char) :
    List.flatten (splitOnColon l) = l.filter (fun c => !(c == ':')) := by
  induction l with
  | nil => simp [splitOnColon]
  | cons c rest ih =>
    simp only [splitOnColon]
    by_cases hc : c = ':'
    · simp [hc, List.filter, ih]
    · have hcb : (c == ':') = false := by simp [hc]
      rcases hs : splitOnColon rest with _ | ⟨h2, t2⟩
      · exact absurd hs (splitOnColon_ne_nil rest)
      · simp only [hcb, Bool.false_eq_true, if_false, hs]
        have : List.flatten (h2 :: t2) = rest.filter (fun c => !(c == ':')) := by
          rw [← hs, ih]
        simp only [List.flatten_cons] at this
        simp [List.filter, hcb, List.flatten_cons, this]

theorem flatten_tail_splitOnColon (l : List Char) :
    List.flatten ((splitOnColon l).tail) =
      (afterFirstColon l).filter (fun c => !(c == ':')) := by
  induction l with
  | nil => simp [splitOnColon, afterFirstColon]
  | cons c rest ih =>
    simp only [splitOnColon, afterFirstColon]
    by_cases hc : c = ':'
    · have hcb : (c == ':') = true := by simp [hc]
      simp only [hcb, if_true, List.tail_cons]
      have := flatten_splitOnColon rest
      simp [this]
    · have hcb : (c == ':') = false := by simp [hc]
      rcases hs : splitOnColon rest with _ | ⟨h2, t2⟩
      · exact absurd hs (splitOnColon_ne_nil rest)
      · simp only [hcb, Bool.false_eq_true, if_false, List.tail_cons]
        rw [hs] at ih
        simpa using ih

/-! ## Claim C1 -/

/-- Claim C1: on the four Scenario A lines, the parse produces exactly one
record, keyed `ACCT1013`, whose serialized fields are course code
`ACCT1013`, course name `PRINCIPLES OF ACCOUNTING`, unit `3`, prerequisite
exactly `N/A`, and description exactly `This course covers basics.`. -/
theorem claim_c1_scenario_a :
    (extractRecords scenA).map Prod.fst = ["ACCT1013".toList] ∧
    recordRows scenA =
      [⟨"ACCT1013".toList, "PRINCIPLES OF ACCOUNTING".toList, "N/A".toList, some ['3']⟩] ∧
    descRows scenA = [("ACCT1013".toList, "This course covers basics.".toList)] := by
  refine ⟨by decide, by decide, by decide⟩

/-! ## Claim C9 -/

/-- Claim C9 counterexample: the result for the empty input is the very
same bare empty record list produced for an ordinary non-empty document
with no course headers — the return value carries no `EmptyInput`
diagnostic status distinguishing it from ordinary output. -/
theorem claim_c9_counterexample :
    extractRecords ([] : List Line) = [] ∧
    extractRecords ([] : List Line) = extractRecords noHeaderDoc := by
  refine ⟨by decide, by decide⟩

/-- Claim C9 (amended): for the empty input the parse terminates and
returns a mapping with zero records (the segmenter still builds its single
trailing segment); no explicit diagnostic status is attached to the
result. -/
theorem claim_c9_empty_input :
    extractRecords ([] : List Line) = [] ∧
    segmentLines ([] : List Line) = ([], [[]]) ∧
    recordRows ([] : List Line) = [] := by
  refine ⟨by decide, by decide, by decide⟩

/-! ## Claim C4 counterexample and Claim C3 counterexample -/

/-- Claim C4 counterexample: an input whose first line fully matches the
course-name pattern, with no preceding description-marker line — contrary
to the claim, that first line IS recorded as a new course header. -/
theorem claim_c4_counterexample :
    (segmentLines [hLineA]).1 = [hLineA] ∧ (segmentLines [hLineA]).1 ≠ [] := by
  refine ⟨by decide, by decide⟩

/-- Claim C3 counterexample: a document with N = 0 genuine headers (the
empty document) produces one segment, not zero, so the two counts differ
in the N = 0 case included by the claim. -/
theorem claim_c3_counterexample :
    (segmentLines ([] : List Line)).1.length = 0 ∧
    (segmentLines ([] : List Line)).2.length = 1 := by
  refine ⟨by decide, by decide⟩

/-! ## Claim C8 -/

/-- Claim C8 counterexample: on a description body containing a second
colon, the code removes every colon (via `split(":")[1:]` rejoined), while
the spec's formula — drop up to and including the first colon only —
preserves the later colon; the two results differ. -/
theorem claim_c8_counterexample :
    tsvDescription c8raw = "uses A and B.".toList ∧
    descriptionPerSpecC8 c8raw = "uses A: and B.".toList ∧
    tsvDescription c8raw ≠ descriptionPerSpecC8 c8raw := by
  refine ⟨by decide, by decide, by decide⟩

/-- Claim C8 (amended): the description field is obtained by keeping the
raw lines from the first description-marker line onward, dropping the
page-number lines, joining, then keeping only the text after the first
colon with every later colon deleted as well, and trimming. -/
theorem claim_c8_description (v : List Line) :
    tsvDescription v =
      pyStrip (List.filter (fun c => !(c == ':'))
        (afterFirstColon
          (List.flatten (v.filter (fun line => !(pageNumberMatch (pyStrip line))))))) := by
  show pyStrip (List.flatten ((splitOnColon
      (List.flatten (v.filter (fun line => !(pageNumberMatch (pyStrip line)))))).tail)) = _
  rw [flatten_tail_splitOnColon]

/-! ## Claim C7 -/

/-- Claim C7 counterexample: a document whose prerequisite block is a
single whitespace character.  The trimmed concatenation is empty, yet the
serialized prerequisite value is the empty string, not `N/A` — the code
tests emptiness before stripping. -/
theorem claim_c7_counterexample :
    pyStrip (get_course_pre c7raw) = [] ∧
    tsvPrerequisite (get_course_pre c7raw) ≠ "N/A".toList ∧
    (recordRows c7doc).map TsvRow.pre = [[]] := by
  refine ⟨by decide, by decide, by decide⟩

/-- Claim C7 (amended): the prerequisite field is the separator-free
concatenation of the lines from the prerequisite-marker line (marker
stripped) up to the first description-marker line; the serialized value is
`N/A` whenever the untrimmed concatenation is empty or the trimmed result
contains `None` (hence also `None Course`), and Scenario E's
`None Course required` block normalizes to exactly `N/A`.  (A
whitespace-only non-empty concatenation serializes to the empty string
instead.) -/
theorem claim_c7_prerequisite :
    (∀ p : Line, p = [] → tsvPrerequisite p = "N/A".toList) ∧
    (∀ p : Line, containsSub ("None".toList) (pyStrip p) = true →
      tsvPrerequisite p = "N/A".toList) ∧
    tsvPrerequisite (get_course_pre scenERaw) = "N/A".toList := by
  refine ⟨?_, ?_, by decide⟩
  · intro p hp
    subst hp
    decide
  · intro p hp
    have hpe : p.isEmpty = false ∨ p = [] := by
      cases p
      · right
        rfl
      · left
        rfl
    rcases hpe with hpe | hnil
    · have hp2 : containsSub ['N', 'o', 'n', 'e'] (pyStrip p) = true := hp
      simp [tsvPrerequisite, hpe, hp2]
    · subst hnil
      decide

/-- Claim C7 witness: the amended normalization facts applied at a
concrete prerequisite string containing `None`. -/
theorem claim_c7_witness :
    tsvPrerequisite (" None X".toList) = "N/A".toList :=
  claim_c7_prerequisite.2.1 (" None X".toList) (by decide)

/-! ## Claim C6 -/

/-- Claim C6: the hanging-title collector takes exactly the non-empty raw
lines before the first line containing an open parenthesis; the course
name is the header line with the matched code removed and trimmed, joined
to those lines by single spaces and trimmed; and Scenario B's split title
yields `ADVANCED STRATEGIC MANAGEMENT`. -/
theorem claim_c6_course_name :
    (∀ raw : List Line,
      hanging_course_name raw =
        (raw.takeWhile (fun l => !(l.contains '('))).filter (fun l => !(l.isEmpty))) ∧
    (∀ (nm : Line) (raw : List Line) (cc : Line), get_course_code nm = some cc →
      get_course_name nm raw =
        pyStrip (List.intercalate [' '] (pyStrip (removeAll cc nm) :: hanging_course_name raw))) ∧
    (extractRecords scenB).map (fun p => p.2.course_name) =
      ["ADVANCED STRATEGIC MANAGEMENT".toList] := by
  refine ⟨?_, ?_, by decide⟩
  · intro raw
    induction raw with
    | nil => simp [hanging_course_name]
    | cons line rest ih =>
      by_cases hpar : '(' ∈ line
      · simp [hanging_course_name, hpar, List.takeWhile_cons]
      · by_cases hemp : line.isEmpty
        · have hnil : line = [] := by
            cases line
            · rfl
            · simp [List.isEmpty] at hemp
          subst hnil
          simp [hanging_course_name, hpar, List.takeWhile_cons, List.filter, ih]
        · have hempf : line.isEmpty = false := by
            revert hemp
            cases line.isEmpty
            · intro h
              rfl
            · intro h
              exact absurd rfl h
          simp [hanging_course_name, hpar, hempf, List.takeWhile_cons, List.filter, ih]
  · intro nm raw cc hcc
    unfold get_course_name
    rw [hcc]

/-- Claim C6 witness: the course-name formula applied at the Scenario B
header with an empty raw block. -/
theorem claim_c6_witness :
    get_course_name hLineB [] =
      pyStrip (List.intercalate [' '] (pyStrip (removeAll codeB hLineB) :: hanging_course_name [])) :=
  claim_c6_course_name.2.1 hLineB [] codeB (by decide)

/-! ## Segmenter lemmas -/

theorem fold_keep1 (u : List Line) :
    ∀ (cn : List Line) (cd : List (List Line)) (tp : List Line),
      (∀ l ∈ u, containsDescMarker l = false) →
      List.foldl segStep ⟨cn, cd, 1, tp⟩ u = ⟨cn, cd, 1, tp ++ u⟩ := by
  induction u with
  | nil =>
    intro cn cd tp _
    simp
  | cons line rest ih =>
    intro cn cd tp hu
    have hm : containsDescMarker line = false := hu line (by simp)
    have hstep : segStep ⟨cn, cd, 1, tp⟩ line = ⟨cn, cd, 1, tp ++ [line]⟩ := by
      by_cases hn : isCourseNameLine line = true
      · simp [segStep, hn]
      · have hn2 : isCourseNameLine line = false := by
          revert hn
          cases isCourseNameLine line
          · intro h
            rfl
          · intro h
            exact absurd rfl h
        simp [segStep, hn2, hm]
    rw [List.foldl_cons, hstep, ih cn cd (tp ++ [line]) (fun l hl => hu l (by simp [hl]))]
    simp

theorem fold_keep0 (v : List Line) :
    ∀ (cn : List Line) (cd : List (List Line)) (tp : List Line),
      (∀ l ∈ v, isCourseNameLine l = false) →
      List.foldl segStep ⟨cn, cd, 0, tp⟩ v = ⟨cn, cd, 0, tp ++ v⟩ := by
  induction v with
  | nil =>
    intro cn cd tp _
    simp
  | cons line rest ih =>
    intro cn cd tp hv
    have hn : isCourseNameLine line = false := hv line (by simp)
    have hstep : segStep ⟨cn, cd, 0, tp⟩ line = ⟨cn, cd, 0, tp ++ [line]⟩ := by
      by_cases hm : containsDescMarker line = true
      · simp [segStep, hn, hm]
      · have hm2 : containsDescMarker line = false := by
          revert hm
          cases containsDescMarker line
          · intro h
            rfl
          · intro h
            exact absurd rfl h
        simp [segStep, hn, hm2]
    rw [List.foldl_cons, hstep, ih cn cd (tp ++ [line]) (fun l hl => hv l (by simp [hl]))]
    simp

theorem cn_mono (text : List Line) :
    ∀ s : SegState, ∃ ext, (List.foldl segStep s text).cn_list = s.cn_list ++ ext := by
  induction text with
  | nil =>
    intro s
    exact ⟨[], by simp⟩
  | cons line rest ih =>
    intro s
    obtain ⟨ext, hext⟩ := ih (segStep s line)
    have hstep : ∃ d, (segStep s line).cn_list = s.cn_list ++ d := by
      unfold segStep
      split
      · split
        · exact ⟨[], by simp⟩
        · split
          · exact ⟨[line], by simp⟩
          · exact ⟨[line], by simp⟩
      · split
        · exact ⟨[], by simp⟩
        · exact ⟨[], by simp⟩
    obtain ⟨d, hd⟩ := hstep
    refine ⟨d ++ ext, ?_⟩
    rw [List.foldl_cons, hext, hd, List.append_assoc]

/-! ## Claim C2 -/

/-- Claim C2: a document consisting of one genuine course header followed
by marker-free lines and then a header-shaped cross-reference line
produces exactly one recorded course-name line and a single segment; the
cross-reference line is appended to that segment's buffer rather than
opening a second segment. -/
theorem claim_c2_cross_reference (h x : Line) (mid : List Line)
    (hh : isCourseNameLine h = true) (hx : isCourseNameLine x = true)
    (hmid : ∀ l ∈ mid, containsDescMarker l = false) :
    segmentLines (h :: (mid ++ [x])) = ([h], [mid ++ [x]]) := by
  have hstep1 : segStep segInit h = ⟨[h], [], 1, []⟩ := by
    simp [segStep, segInit, hh]
  have hfold : List.foldl segStep ⟨[h], [], 1, []⟩ mid = ⟨[h], [], 1, mid⟩ := by
    have := fold_keep1 mid [h] [] [] hmid
    simpa using this
  have hstepx : segStep ⟨[h], [], 1, mid⟩ x = ⟨[h], [], 1, mid ++ [x]⟩ := by
    simp [segStep, hx]
  unfold segmentLines segRun
  rw [List.foldl_cons, List.foldl_append, hstep1, hfold]
  simp [hstepx]

/-- Claim C2 witness: the cross-reference property at a concrete three-line
document. -/
theorem claim_c2_witness :
    segmentLines [hLineA, "some body text".toList, hLineB] =
      ([hLineA], [["some body text".toList, hLineB]]) :=
  claim_c2_cross_reference hLineA hLineB ["some body text".toList]
    (by decide) (by decide) (by decide)

/-! ## Claim C4 -/

/-- Claim C4 (amended): the segmenter's flag `new_flag` starts at 0, the
state in which a pattern-matching line opens a new course; a line fully
matching the course-name pattern that is met while `new_flag = 1` (after a
header, before any description marker) is appended to the buffer; and
consequently the first line of a document, when it fully matches the
pattern, IS recorded as a new course header. -/
theorem claim_c4_flag_semantics :
    segInit.new_flag = 0 ∧
    (∀ (s : SegState) (l : Line), isCourseNameLine l = true → s.new_flag = 1 →
      segStep s l = { s with temp_c_list := s.temp_c_list ++ [l] }) ∧
    (∀ (l : Line) (rest : List Line), isCourseNameLine l = true →
      (segmentLines (l :: rest)).1.head? = some l) := by
  refine ⟨rfl, ?_, ?_⟩
  · intro s l hn hf
    simp [segStep, hn, hf]
  · intro l rest hn
    have hstep : segStep segInit l = ⟨[l], [], 1, []⟩ := by
      simp [segStep, segInit, hn]
    unfold segmentLines segRun
    rw [List.foldl_cons, hstep]
    obtain ⟨ext, hext⟩ := cn_mono rest ⟨[l], [], 1, []⟩
    simp only [hext]
    simp

/-- Claim C4 witness: the amended header rule applied to a concrete
two-line document starting with a pattern-matching line. -/
theorem claim_c4_witness :
    (segmentLines [hLineB, "x".toList]).1.head? = some hLineB :=
  claim_c4_flag_semantics.2.2 hLineB ["x".toList] (by decide)

/-! ## Character-level facts about the course-name pattern -/

theorem codeTry_inv (k : Nat) (l code rest : List Char)
    (h : codeTry k l = some (code, rest)) :
    (l.take k).length = k ∧ (l.take k).all isUpperC = true ∧
    ((l.drop k).take 4).length = 4 ∧ ((l.drop k).take 4).all isDigitC = true ∧
    code = l.take k ++ (l.drop k).take 4 ∧ rest = l.drop (k + 4) := by
  unfold codeTry at h
  split at h
  case isTrue hc =>
    simp only [Bool.and_eq_true, decide_eq_true_eq] at hc
    injection h with h1
    obtain ⟨hcode, hrest⟩ := Prod.mk.injEq .. ▸ h1
    exact ⟨hc.1.1.1, hc.1.1.2, hc.1.2, hc.2, hcode.symm, hrest.symm⟩
  case isFalse => exact absurd h (by simp)

theorem fullTry_inv (k : Nat) (l code : List Char) (h : fullTry k l = some code) :
    ∃ tail, codeTry k l = some (code, ' ' :: tail) ∧ tail.all allowedChar = true := by
  unfold fullTry at h
  split at h
  next code2 tail heq =>
    split at h
    case isTrue ht =>
      injection h with h1
      subst h1
      exact ⟨tail, heq, ht⟩
    case isFalse => exact absurd h (by simp)
  next => exact absurd h (by simp)

theorem fullTry_all (k : Nat) (l code : List Char)
    (h : fullTry k l = some code) : ∀ c ∈ l, allowedChar c = true := by
  obtain ⟨tail, hct, htail⟩ := fullTry_inv k l code h
  obtain ⟨hlen, hup, hlen4, hdig, hcode, hrest⟩ := codeTry_inv _ _ _ _ hct
  intro c hc
  have hdrop : (l.drop k).drop 4 = ' ' :: tail := by
    rw [List.drop_drop]
    exact hrest.symm
  have hsplit : l = l.take k ++ ((l.drop k).take 4 ++ (l.drop k).drop 4) := by
    rw [List.take_append_drop, List.take_append_drop]
  rw [hsplit] at hc
  rcases List.mem_append.mp hc with hc1 | hc2
  · have hupc : isUpperC c = true := List.all_eq_true.mp hup c hc1
    simp [allowedChar, hupc]
  · rcases List.mem_append.mp hc2 with hc3 | hc4
    · have hdgc : isDigitC c = true := List.all_eq_true.mp hdig c hc3
      simp [allowedChar, hdgc]
    · rw [hdrop] at hc4
      rcases List.mem_cons.mp hc4 with hsp | hc5
      · subst hsp
        decide
      · exact List.all_eq_true.mp htail c hc5

theorem fullMatch_cases (l code : List Char) (h : courseNameFullMatch l = some code) :
    fullTry 4 l = some code ∨ fullTry 3 l = some code ∨ fullTry 2 l = some code := by
  unfold courseNameFullMatch at h
  cases h4 : fullTry 4 l with
  | some c4 =>
    rw [h4] at h
    exact Or.inl h
  | none =>
    rw [h4] at h
    cases h3 : fullTry 3 l with
    | some c3 =>
      rw [h3] at h
      exact Or.inr (Or.inl h)
    | none =>
      rw [h3] at h
      exact Or.inr (Or.inr h)

theorem courseName_all_allowed (l code : List Char)
    (h : courseNameFullMatch l = some code) : ∀ c ∈ l, allowedChar c = true := by
  rcases fullMatch_cases l code h with h4 | h3 | h2
  · exact fullTry_all 4 l code h4
  · exact fullTry_all 3 l code h3
  · exact fullTry_all 2 l code h2

theorem containsSub_subset (pat l : List Char) (h : containsSub pat l = true) :
    ∀ c ∈ pat, c ∈ l := by
  induction l with
  | nil =>
    intro c hc
    cases pat with
    | nil => simp at hc
    | cons a b => simp [containsSub, List.isEmpty] at h
  | cons a rest ih =>
    simp only [containsSub, Bool.or_eq_true] at h
    rcases h with h | h
    · intro c hc
      have hpre : pat <+: a :: rest := List.isPrefixOf_iff_prefix.mp h
      exact hpre.subset hc
    · intro c hc
      exact List.mem_cons_of_mem a (ih h c hc)

/-- A line containing a description-marker substring never fully matches
the course-name pattern: every marker contains the lowercase letter `e`,
which the pattern's character classes exclude. -/
theorem marker_not_name (l : Line) (hm : containsDescMarker l = true) :
    isCourseNameLine l = false := by
  have hmem : 'e' ∈ l := by
    unfold containsDescMarker at hm
    rcases List.any_eq_true.mp hm with ⟨mk, hmk, hsub⟩
    have hall : ∀ m2 ∈ descMarkers, 'e' ∈ m2 := by decide
    exact containsSub_subset mk l hsub 'e' (hall mk hmk)
  cases hn : isCourseNameLine l with
  | false => rfl
  | true =>
    unfold isCourseNameLine at hn
    cases hfm : courseNameFullMatch l with
    | none => rw [hfm] at hn; simp at hn
    | some code =>
      have := courseName_all_allowed l code hfm 'e' hmem
      exact absurd this (by decide)

/-! ## Claim C3 -/

theorem fold_block (hd mk : Line) (u v : List Line)
    (cn : List Line) (cd : List (List Line)) (tp : List Line)
    (hh : isCourseNameLine hd = true) (hm : containsDescMarker mk = true)
    (hu : ∀ l ∈ u, containsDescMarker l = false)
    (hv : ∀ l ∈ v, isCourseNameLine l = false) :
    List.foldl segStep ⟨cn, cd, 0, tp⟩ (hd :: (u ++ mk :: v)) =
      if cn.isEmpty then ⟨cn ++ [hd], cd, 0, tp ++ (u ++ mk :: v)⟩
      else ⟨cn ++ [hd], cd ++ [tp], 0, u ++ mk :: v⟩ := by
  have hmn : isCourseNameLine mk = false := marker_not_name mk hm
  have hmstep : ∀ (cn2 : List Line) (cd2 : List (List Line)) (tp2 : List Line),
      segStep ⟨cn2, cd2, 1, tp2⟩ mk = ⟨cn2, cd2, 0, tp2 ++ [mk]⟩ := by
    intro cn2 cd2 tp2
    simp [segStep, hmn, hm]
  by_cases hc : cn.isEmpty
  · have hstep1 : segStep ⟨cn, cd, 0, tp⟩ hd = ⟨cn ++ [hd], cd, 1, tp⟩ := by
      simp [segStep, hh, hc]
    rw [if_pos hc, List.foldl_cons, hstep1, List.foldl_append,
        fold_keep1 u (cn ++ [hd]) cd tp hu, List.foldl_cons, hmstep,
        fold_keep0 v (cn ++ [hd]) cd (tp ++ u ++ [mk]) hv]
    simp
  · have hc2 : cn.isEmpty = false := by
      revert hc
      cases cn.isEmpty
      · intro h
        rfl
      · intro h
        exact absurd rfl h
    have hstep1 : segStep ⟨cn, cd, 0, tp⟩ hd = ⟨cn ++ [hd], cd ++ [tp], 1, []⟩ := by
      simp [segStep, hh, hc2]
    rw [if_neg hc, List.foldl_cons, hstep1, List.foldl_append,
        fold_keep1 u (cn ++ [hd]) (cd ++ [tp]) [] hu, List.foldl_cons]
    simp only [List.nil_append]
    rw [hmstep, fold_keep0 v (cn ++ [hd]) (cd ++ [tp]) (u ++ [mk]) hv]
    simp

theorem fold_blocks (bs : List Block) :
    ∀ (cn : List Line) (cd : List (List Line)) (tp : List Line),
      (∀ b ∈ bs, goodBlock b) → cn.isEmpty = false →
      ∃ cn2 cd2 tp2,
        List.foldl segStep ⟨cn, cd, 0, tp⟩ ((bs.map blockLines).flatten) = ⟨cn2, cd2, 0, tp2⟩ ∧
        cn2.length = cn.length + bs.length ∧
        cd2.length = cd.length + bs.length ∧
        cn2.isEmpty = false := by
  induction bs with
  | nil =>
    intro cn cd tp _ hcn
    exact ⟨cn, cd, tp, by simp, by simp, by simp, hcn⟩
  | cons b rest ih =>
    intro cn cd tp hgood hcn
    obtain ⟨hbh, hbm, hbu, hbv⟩ := hgood b (by simp)
    have hb := fold_block b.header b.marker b.mid b.tail cn cd tp hbh hbm hbu hbv
    rw [if_neg (by simp [hcn])] at hb
    have hne : (cn ++ [b.header]).isEmpty = false := by
      cases cn <;> simp
    obtain ⟨cn2, cd2, tp2, hfold, hlen1, hlen2, hne2⟩ :=
      ih (cn ++ [b.header]) (cd ++ [tp]) (b.mid ++ b.marker :: b.tail)
        (fun b2 hb2 => hgood b2 (by simp [hb2])) hne
    refine ⟨cn2, cd2, tp2, ?_, ?_, ?_, hne2⟩
    · simp only [List.map_cons, List.flatten_cons]
      rw [List.foldl_append]
      rw [show (blockLines b : List Line) = b.header :: (b.mid ++ b.marker :: b.tail) from rfl]
      rw [hb]
      exact hfold
    · simp at hlen1
      simp [hlen1]
      omega
    · simp at hlen2
      simp [hlen2]
      omega

/-- Claim C3 (amended): for a document made of an optional header-free
prefix followed by N well-formed course blocks — each a genuine header
eventually followed by a description-marker line before the next genuine
header — the segmenter records exactly N course-name lines, and builds
exactly N segments when N is at least 1 (the degenerate N = 0 document
still yields the single trailing segment); the two counts are reported in
an unconditional log line. -/
theorem claim_c3_segment_counts (pre : List Line) (bs : List Block)
    (hpre : ∀ l ∈ pre, isCourseNameLine l = false)
    (hbs : ∀ b ∈ bs, goodBlock b) :
    (segmentLines (pre ++ (bs.map blockLines).flatten)).1.length = bs.length ∧
    (segmentLines (pre ++ (bs.map blockLines).flatten)).2.length =
      (if bs.isEmpty then 1 else bs.length) := by
  have hpref : List.foldl segStep segInit pre = ⟨[], [], 0, pre⟩ := by
    have := fold_keep0 pre [] [] [] hpre
    simpa [segInit] using this
  cases bs with
  | nil =>
    unfold segmentLines segRun
    rw [List.foldl_append]
    simp [hpref]
  | cons b rest =>
    obtain ⟨hbh, hbm, hbu, hbv⟩ := hbs b (by simp)
    have hb := fold_block b.header b.marker b.mid b.tail [] [] pre hbh hbm hbu hbv
    rw [if_pos (by simp)] at hb
    obtain ⟨cn2, cd2, tp2, hfold, hlen1, hlen2, hne2⟩ :=
      fold_blocks rest [b.header] [] (pre ++ (b.mid ++ b.marker :: b.tail))
        (fun b2 hb2 => hbs b2 (by simp [hb2])) (by simp)
    unfold segmentLines segRun
    rw [List.foldl_append]
    rw [hpref]
    simp only [List.map_cons, List.flatten_cons]
    rw [List.foldl_append]
    rw [show (blockLines b : List Line) = b.header :: (b.mid ++ b.marker :: b.tail) from rfl]
    rw [hb]
    simp only [List.nil_append] at hfold ⊢
    rw [hfold]
    simp only [List.length_singleton, List.length_nil, Nat.zero_add] at hlen1 hlen2
    refine ⟨?_, ?_⟩
    · simp only [List.length_cons]
      omega
    · simp only [List.isEmpty_cons, Bool.false_eq_true, if_false, List.length_append,
        List.length_cons, List.length_nil]
      omega

/-- Claim C3 witness: the segment-count law applied to a concrete one-block
document. -/
theorem claim_c3_witness :
    (segmentLines (([] : List Line) ++
        (([⟨hLineA, [], "Course Description: basics.".toList, []⟩] : List Block).map
          blockLines).flatten)).1.length = 1 ∧
    (segmentLines (([] : List Line) ++
        (([⟨hLineA, [], "Course Description: basics.".toList, []⟩] : List Block).map
          blockLines).flatten)).2.length =
      (if ([⟨hLineA, [], "Course Description: basics.".toList, []⟩] : List Block).isEmpty
       then 1 else 1) :=
  claim_c3_segment_counts [] [⟨hLineA, [], "Course Description: basics.".toList, []⟩]
    (by simp)
    (by
      intro b hb
      rw [List.mem_singleton] at hb
      subst hb
      exact ⟨by decide, by decide, by decide, by decide⟩)

/-! ## Claim C10 -/

theorem segStep_cases (s : SegState) (line : Line) :
    ((segStep s line).cn_list = s.cn_list ∧ (segStep s line).cd_list = s.cd_list ∧
      (segStep s line).temp_c_list = s.temp_c_list ++ [line]) ∨
    ((segStep s line).cn_list = s.cn_list ++ [line] ∧ s.cn_list.isEmpty = true ∧
      (segStep s line).cd_list = s.cd_list ∧
      (segStep s line).temp_c_list = s.temp_c_list) ∨
    ((segStep s line).cn_list = s.cn_list ++ [line] ∧ s.cn_list.isEmpty = false ∧
      (segStep s line).cd_list = s.cd_list ++ [s.temp_c_list] ∧
      (segStep s line).temp_c_list = []) := by
  unfold segStep
  split
  · split
    · exact Or.inl ⟨rfl, rfl, rfl⟩
    · split
      case isTrue hc => exact Or.inr (Or.inl ⟨rfl, hc, rfl, rfl⟩)
      case isFalse hc =>
        refine Or.inr (Or.inr ⟨rfl, ?_, rfl, rfl⟩)
        revert hc
        cases s.cn_list.isEmpty
        · intro h
          rfl
        · intro h
          exact absurd rfl h
  · split
    · exact Or.inl ⟨rfl, rfl, rfl⟩
    · exact Or.inl ⟨rfl, rfl, rfl⟩

theorem seg_inv (text : List Line) :
    ∀ s : SegState,
      (s.cn_list.isEmpty = true → s.cd_list = []) →
      (s.cn_list.isEmpty = false → s.cd_list.length + 1 = s.cn_list.length) →
      (((List.foldl segStep s text).cn_list.isEmpty = true →
          (List.foldl segStep s text).cd_list = [] ∧
          (List.foldl segStep s text).temp_c_list = s.temp_c_list ++ text) ∧
       ((List.foldl segStep s text).cn_list.isEmpty = false →
          (List.foldl segStep s text).cd_list.length + 1 =
            (List.foldl segStep s text).cn_list.length)) := by
  induction text with
  | nil =>
    intro s h1 h2
    exact ⟨fun he => ⟨h1 he, by simp⟩, h2⟩
  | cons line rest ih =>
    intro s h1 h2
    simp only [List.foldl_cons]
    rcases segStep_cases s line with ⟨hcn, hcd, htp⟩ | ⟨hcn, hemp, hcd, htp⟩ | ⟨hcn, hne, hcd, htp⟩
    · have := ih (segStep s line) (by rw [hcn, hcd]; exact h1) (by rw [hcn, hcd]; exact h2)
      refine ⟨fun he => ⟨(this.1 he).1, ?_⟩, this.2⟩
      rw [(this.1 he).2, htp, List.append_assoc]
      rfl
    · have hnonempty : (segStep s line).cn_list.isEmpty = false := by
        rw [hcn]
        cases s.cn_list <;> simp
      have hinv1 : (segStep s line).cn_list.isEmpty = true → (segStep s line).cd_list = [] := by
        intro he
        rw [hnonempty] at he
        exact absurd he (by simp)
      have hinv2 : (segStep s line).cn_list.isEmpty = false →
          (segStep s line).cd_list.length + 1 = (segStep s line).cn_list.length := by
        intro _
        have hsnil : s.cn_list = [] := by
          cases hs : s.cn_list with
          | nil => rfl
          | cons a b =>
            rw [hs] at hemp
            simp at hemp
        rw [hcn, hcd, hsnil, h1 (by rw [hsnil]; rfl)]
        simp
      have := ih (segStep s line) hinv1 hinv2
      refine ⟨fun he => ?_, this.2⟩
      · exfalso
        obtain ⟨ext, hext⟩ := cn_mono rest (segStep s line)
        rw [hext, hcn] at he
        cases s.cn_list <;> simp at he
    · have hnonempty : (segStep s line).cn_list.isEmpty = false := by
        rw [hcn]
        cases s.cn_list <;> simp
      have hinv1 : (segStep s line).cn_list.isEmpty = true → (segStep s line).cd_list = [] := by
        intro he
        rw [hnonempty] at he
        exact absurd he (by simp)
      have hinv2 : (segStep s line).cn_list.isEmpty = false →
          (segStep s line).cd_list.length + 1 = (segStep s line).cn_list.length := by
        intro _
        rw [hcn, hcd]
        have := h2 hne
        simp
        omega
      have := ih (segStep s line) hinv1 hinv2
      refine ⟨fun he => ?_, this.2⟩
      · exfalso
        obtain ⟨ext, hext⟩ := cn_mono rest (segStep s line)
        rw [hext, hcn] at he
        cases s.cn_list <;> simp at he

/-- Claim C10: after the single pass, the number of segments equals the
number of recorded course-name lines whenever at least one course-name
line was recorded (no description marker is required anywhere); when none
was recorded, exactly one segment holding all input lines is produced, so
the two counts differ precisely in the zero-header case. -/
theorem claim_c10_count_invariant (text : List Line) :
    ((segmentLines text).1.isEmpty = true → (segmentLines text).2 = [text]) ∧
    ((segmentLines text).1.isEmpty = false →
      (segmentLines text).2.length = (segmentLines text).1.length) ∧
    ((segmentLines text).2.length = (segmentLines text).1.length ↔
      (segmentLines text).1.isEmpty = false) := by
  have hinv := seg_inv text segInit (fun _ => rfl) (fun he => absurd he (by simp [segInit]))
  have h1 : (segmentLines text).1 = (List.foldl segStep segInit text).cn_list := rfl
  have h2 : (segmentLines text).2 =
      (List.foldl segStep segInit text).cd_list ++
        [(List.foldl segStep segInit text).temp_c_list] := rfl
  refine ⟨?_, ?_, ?_⟩
  · intro he
    rw [h1] at he
    obtain ⟨hcd, htp⟩ := hinv.1 he
    rw [h2, hcd, htp]
    simp [segInit]
  · intro he
    rw [h1] at he
    have := hinv.2 he
    rw [h1, h2]
    simp [this]
  · constructor
    · intro heq
      cases he : (segmentLines text).1.isEmpty with
      | false => rfl
      | true =>
        exfalso
        rw [h1] at he
        obtain ⟨hcd, htp⟩ := hinv.1 he
        have hnil : (List.foldl segStep segInit text).cn_list = [] := by
          cases hc : (List.foldl segStep segInit text).cn_list with
          | nil => rfl
          | cons a b =>
            rw [hc] at he
            simp at he
        have hlen2 : (segmentLines text).2.length = 1 := by
          rw [h2, hcd]
          rfl
        have hlen1 : (segmentLines text).1.length = 0 := by
          rw [h1, hnil]
          rfl
        rw [hlen2, hlen1] at heq
        simp at heq
    · intro he
      rw [h1] at he
      have := hinv.2 he
      rw [h1, h2]
      simp [this]

/-- Claim C10 witness: the zero-header branch of the count invariant
applied to a concrete header-free document. -/
theorem claim_c10_witness :
    (segmentLines noHeaderDoc).2 = [noHeaderDoc] :=
  (claim_c10_count_invariant noHeaderDoc).1 (by decide)

/-! ## Claim C5 -/

theorem codeTry_digit_at (k : Nat) (l : List Char) (p : List Char × List Char)
    (h : codeTry k l = some p) :
    ∃ d tail, l.drop k = d :: tail ∧ isDigitC d = true := by
  obtain ⟨hlen, hup, hlen4, hdig, hcode, hrest⟩ := codeTry_inv k l p.1 p.2 (by simpa using h)
  cases hd : l.drop k with
  | nil =>
    rw [hd] at hlen4
    simp at hlen4
  | cons d tail =>
    refine ⟨d, tail, rfl, ?_⟩
    rw [hd] at hdig
    have : d ∈ (d :: tail).take 4 := by simp
    exact List.all_eq_true.mp hdig d this

theorem take_add_own (l : List Char) (m n : Nat) :
    l.take (m + n) = l.take m ++ (l.drop m).take n := by
  induction m generalizing l with
  | zero => simp
  | succ m2 ih =>
    cases l with
    | nil => simp
    | cons a t =>
      rw [Nat.succ_add]
      simp only [List.take_succ_cons, List.drop_succ_cons, ih]
      rfl

theorem upper_digit_clash (c : Char) (h1 : isUpperC c = true) (h2 : isDigitC c = true) :
    False := by
  unfold isUpperC at h1
  unfold isDigitC at h2
  simp only [Bool.and_eq_true, decide_eq_true_eq] at h1 h2
  omega

theorem codeTry_excl (j k : Nat) (l : List Char) (p : List Char × List Char)
    (hjk : j < k) (h : codeTry j l = some p) : codeTry k l = none := by
  obtain ⟨d, tail, hdrop, hdig⟩ := codeTry_digit_at j l p h
  have hupf : (l.take k).all isUpperC = false := by
    cases hup : (l.take k).all isUpperC with
    | false => rfl
    | true =>
      exfalso
      have hmem : d ∈ l.take k := by
        have hk : k = j + (k - j) := by omega
        rw [hk, take_add_own, hdrop]
        have hpos : k - j = (k - j - 1) + 1 := by omega
        rw [hpos]
        simp
      exact upper_digit_clash d (List.all_eq_true.mp hup d hmem) hdig
  unfold codeTry
  rw [hupf]
  simp

/-- Claim C5: on every line fully matching the anchored course-name
pattern, the unanchored search `get_course_code` succeeds and returns
exactly the first capture group of the anchored match. -/
theorem claim_c5_code_agreement (l code : List Char)
    (h : courseNameFullMatch l = some code) : get_course_code l = some code := by
  have hch : codeHere l = some code := by
    rcases fullMatch_cases l code h with h4 | h3 | h2
    · obtain ⟨tail, hct, _⟩ := fullTry_inv 4 l code h4
      unfold codeHere
      rw [hct]
    · obtain ⟨tail, hct, _⟩ := fullTry_inv 3 l code h3
      unfold codeHere
      rw [codeTry_excl 3 4 l (code, ' ' :: tail) (by omega) hct, hct]
    · obtain ⟨tail, hct, _⟩ := fullTry_inv 2 l code h2
      unfold codeHere
      rw [codeTry_excl 2 4 l (code, ' ' :: tail) (by omega) hct,
          codeTry_excl 2 3 l (code, ' ' :: tail) (by omega) hct, hct]
  cases l with
  | nil =>
    exfalso
    rcases fullMatch_cases [] code h with h4 | h3 | h2
    · obtain ⟨tail, hct, _⟩ := fullTry_inv 4 [] code h4
      obtain ⟨hlen, _, _, _, _, _⟩ := codeTry_inv 4 [] code (' ' :: tail) hct
      simp at hlen
    · obtain ⟨tail, hct, _⟩ := fullTry_inv 3 [] code h3
      obtain ⟨hlen, _, _, _, _, _⟩ := codeTry_inv 3 [] code (' ' :: tail) hct
      simp at hlen
    · obtain ⟨tail, hct, _⟩ := fullTry_inv 2 [] code h2
      obtain ⟨hlen, _, _, _, _, _⟩ := codeTry_inv 2 [] code (' ' :: tail) hct
      simp at hlen
  | cons c rest =>
    unfold get_course_code
    rw [hch]

/-- Claim C5 witness: the agreement of the two extractors at the concrete
Scenario A header line. -/
theorem claim_c5_witness :
    get_course_code hLineA = some ("ACCT1013".toList) :=
  claim_c5_code_agreement hLineA ("ACCT1013".toList) (by decide)
